import Mathlib

/-!
Shallow embedding of the cryptographic core of the `dleq` crate:
the Ristretto engine (`src/engines/ristretto.rs`), the Ed25519 engine
(`src/dl_eq_engines/ed25519_engine.rs`) and the shared per-bit commitment
loop, together with proofs about the frozen claims.

Modelling conventions:
* Scalars are `ZMod L` where `L` is the prime order of the curve25519
  prime-order subgroup; `curve25519_dalek::Scalar` values are canonical
  representatives of this quotient, so all scalar arithmetic of the source
  maps to `ZMod L` arithmetic.
* A `RistrettoPoint` is modelled by its discrete logarithm with respect to
  the standard basepoint `G` (the Ristretto group is cyclic of prime order
  `L`, so this is a group isomorphism).  `G` is `1`; the alternate basepoint
  `H` (whose discrete log is unknown) is a parameter `h`.
* An `EdwardsPoint` is modelled as a pair: prime-order component (discrete
  log with respect to the Ed25519 basepoint) and torsion component in
  `ZMod 8` (the full Edwards group is `Z/L x Z/8`).  Scalar multiplication
  acts on the torsion part through the canonical representative of the
  scalar, exactly as `curve25519_dalek` multiplies by canonical scalars.
* The caller-supplied RNG is modelled as a stream `rand : Nat -> Scalar`
  of the successive outputs of `Scalar::random`; generation is a single
  deterministic pass given that stream.
* Rust panics (`expect`) are modelled as `Option.none`; `debug_assert_eq!`
  statements (compiled out of release builds) are modelled as comments.
* Hash functions (`Blake2b`, `Sha512`) and point compression are external
  collaborators; they are parameters of the signature functions
  (`blake : List Nat -> List Nat` producing a 64-byte digest,
  `compress : point -> List Nat`), matching the `Digest`
  parameterization of `Ed25519Engine<D>` in the source.
-/

set_option maxHeartbeats 1000000
set_option maxRecDepth 10000

namespace DLEq

/-- Order of the prime-order subgroup of curve25519, i.e. the modulus of
`curve25519_dalek::scalar::Scalar`. -/
def L : ℕ := 2 ^ 252 + 27742317777372353535851937790883648493

theorem L_pos : 0 < L := by decide

instance : NeZero L := ⟨by decide⟩

/-- Scalars modulo the group order (`curve25519_dalek::scalar::Scalar`). -/
abbrev Scalar := ZMod L

/-- Fuel-based binary modular exponentiation on naturals, used to model
dalek's `Scalar::invert` (which computes `x^(L-2) mod L`) by a
kernel-computable function. -/
def powModAux : ℕ → ℕ → ℕ → ℕ → ℕ
  | 0, _, _, m => 1 % m
  | fuel + 1, b, e, m =>
    if e = 0 then 1 % m
    else
      let r := powModAux fuel (b * b % m) (e / 2) m
      if e % 2 = 1 then r * b % m else r

theorem powModAux_correct :
    ∀ fuel b e m, 0 < m → e < 2 ^ fuel → powModAux fuel b e m = b ^ e % m := by
  intro fuel
  induction fuel with
  | zero =>
    intro b e m hm he
    have he0 : e = 0 := by simpa using Nat.lt_one_iff.mp (by simpa using he)
    subst he0
    simp [powModAux]
  | succ f ih =>
    intro b e m hm he
    by_cases h0 : e = 0
    · subst h0; simp [powModAux]
    · have hpow : (2 : ℕ) ^ (f + 1) = 2 ^ f * 2 := by rw [pow_succ]
      have he2 : e / 2 < 2 ^ f := by omega
      have hrec := ih (b * b % m) (e / 2) m hm he2
      have hbb : (b * b % m) ^ (e / 2) % m = (b * b) ^ (e / 2) % m :=
        (Nat.pow_mod (b * b) (e / 2) m).symm
      by_cases hpar : e % 2 = 1
      · have hsplit : e = 2 * (e / 2) + 1 := by omega
        simp only [powModAux, if_neg h0, hrec, hbb, if_pos hpar]
        rw [Nat.mod_mul_mod]
        conv_rhs => rw [hsplit]
        rw [pow_succ, pow_mul, pow_two]
      · have hsplit : e = 2 * (e / 2) := by omega
        simp only [powModAux, if_neg h0, hrec, hbb, if_neg hpar]
        conv_rhs => rw [hsplit]
        rw [pow_mul, pow_two]

/-- Model of `curve25519_dalek::scalar::Scalar::invert`, which raises its
argument to the power `L - 2` modulo `L`. -/
def sinvert (x : Scalar) : Scalar := ((powModAux 253 x.val (L - 2) L : ℕ) : Scalar)

theorem sinvert_eq_pow (x : Scalar) : sinvert x = x ^ (L - 2) := by
  unfold sinvert
  rw [powModAux_correct 253 x.val (L - 2) L (by decide) (by decide)]
  rw [ZMod.natCast_mod, Nat.cast_pow, ZMod.natCast_rightInverse x]

theorem two_pow_L_sub_one : (2 : Scalar) ^ (L - 1) = 1 := by
  have hnat : (2 : ℕ) ^ (L - 1) % L = 1 := by
    rw [← powModAux_correct 253 2 (L - 1) L (by decide) (by decide)]
    decide
  calc (2 : Scalar) ^ (L - 1)
      = (((2 : ℕ) ^ (L - 1) : ℕ) : Scalar) := by push_cast; ring
    _ = (((2 : ℕ) ^ (L - 1) % L : ℕ) : Scalar) := (ZMod.natCast_mod _ _).symm
    _ = 1 := by rw [hnat]; exact Nat.cast_one

/-- Key algebraic fact behind the blinding-key construction: `sinvert` is a
right inverse of multiplication for powers of two (which are coprime to the
odd modulus `L`). -/
theorem sinvert_pow_two (k : ℕ) : sinvert ((2 : Scalar) ^ k) * (2 : Scalar) ^ k = 1 := by
  rw [sinvert_eq_pow, ← pow_mul, ← pow_add]
  have hL : 2 ≤ L := by decide
  have hexp : k * (L - 2) + k = (L - 1) * k := by
    have h1 : L - 2 + 1 = L - 1 := by omega
    calc k * (L - 2) + k = k * (L - 2 + 1) := by ring
      _ = k * (L - 1) := by rw [h1]
      _ = (L - 1) * k := by ring
  rw [hexp, pow_mul, two_pow_L_sub_one, one_pow]

/-- Little-endian value of a byte string (bytes are naturals below 256). -/
def keyVal : List ℕ → ℕ
  | [] => 0
  | b :: rest => b + 256 * keyVal rest

/-- Bit `i` of a byte-packed little-endian key: models the source expression
`(key[i / 8] >> (i % 8)) & 1` (out-of-range indices read as byte 0, which the
in-range uses below never hit). -/
def keyBit (key : List ℕ) (i : ℕ) : ℕ := (key.getD (i / 8) 0 >>> (i % 8)) &&& 1

/-- Per-bit proof element, `engines::Commitment<Engine>` from `mod.rs`. -/
structure Commitment (P : Type) where
  blinding_key : Scalar
  commitment : P
  commitment_minus_one : P
  deriving DecidableEq

/-- Group-operation dictionary a backend supplies to the shared per-bit
commitment loop: the point operations plus the two basepoints, i.e. the
part of the `DLEqEngine` capability set that `generate_commitments` uses. -/
structure PointOps (P : Type) where
  zero : P
  add : P → P → P
  sub : P → P → P
  smul : Scalar → P → P
  basepoint : P
  altBasepoint : P

/-- The commitment-generation loop, shared verbatim by
`RistrettoEngine::generate_commitments` (ristretto.rs lines 72-97) and
`Ed25519Engine::dl_eq_generate_commitments` (ed25519_engine.rs lines
99-122).  The first numeric argument is the number of remaining iterations;
the remaining state is `(i, blinding_key_total, power_of_two)`.  Iteration
`i` draws `blinding_key` from the random stream, except at the last index
`bits - 1` where it is solved as `-blinding_key_total * power_of_two.invert()`;
it then emits `(commitment, commitment_minus_one)` selected by bit `i` of
the key. -/
def genLoop {P : Type} (E : PointOps P) (rand : ℕ → Scalar) (key : List ℕ)
    (bits : ℕ) : ℕ → ℕ → Scalar → Scalar → List (Commitment P)
  | 0, _, _, _ => []
  | n + 1, i, total, pow =>
    let blinding_key : Scalar := if i = bits - 1 then -total * sinvert pow else rand i
    let base := E.smul blinding_key E.altBasepoint
    let pair : P × P :=
      if keyBit key i = 1 then (E.add base E.basepoint, base)
      else (base, E.sub base E.basepoint)
    { blinding_key := blinding_key, commitment := pair.1, commitment_minus_one := pair.2 } ::
      genLoop E rand key bits n (i + 1) (total + blinding_key * pow) (pow * 2)

/-- Weighted sum of the blinding keys of a commitment list, matching the
accumulator `blinding_key_total`: `wsum cs pow = Σ_j cs[j].blinding_key *
pow * 2^j`. -/
def wsum {P : Type} : List (Commitment P) → Scalar → Scalar
  | [], _ => 0
  | c :: rest, pow => c.blinding_key * pow + wsum rest (pow * 2)

/-- Error type `DLEqError` used by the Ristretto engine (the Ed25519 engine
predates it and reports `anyhow` string errors, modelled as `String`). -/
inductive DLEqError
  | invalidScalar
  | invalidPoint
  | invalidSignature
  deriving DecidableEq

/-- Model of `Scalar::from_bytes_mod_order_wide` / `Scalar::from_hash` on a
64-byte digest: the little-endian value reduced modulo the order ("wide"
reduction). -/
def wideReduce (bytes : List ℕ) : Scalar := ((keyVal (bytes.take 64) : ℕ) : Scalar)

/-- Model of `Scalar::from_bytes_mod_order(digest[..32])`: the little-endian
value of the first 32 digest bytes reduced modulo the order. -/
def narrowReduce32 (bytes : List ℕ) : Scalar := ((keyVal (bytes.take 32) : ℕ) : Scalar)

/-- Little-endian fixed-width byte encoding of a natural number, used for
`Scalar::to_bytes` (32 bytes of the canonical representative). -/
def leBytes : ℕ → ℕ → List ℕ
  | 0, _ => []
  | n + 1, v => v % 256 :: leBytes n (v / 256)

/-- Discrete logarithm of `RISTRETTO_BASEPOINT_POINT` with respect to
itself: the Ristretto group is modelled by dlogs base `G`. -/
def RISTRETTO_BASEPOINT : ZMod L := 1

/-- Ristretto point operations in the discrete-log model; the alternate
basepoint `ALT_BASEPOINT` has unknown discrete log `h`. -/
def ristOps (h : Scalar) : PointOps (ZMod L) where
  zero := 0
  add := fun a b => a + b
  sub := fun a b => a - b
  smul := fun s p => s * p
  basepoint := RISTRETTO_BASEPOINT
  altBasepoint := h

namespace RistrettoEngine

/-- Model of `RistrettoEngine::scalar_bits()`. -/
def scalar_bits : ℕ := 252

/-- Model of `RistrettoEngine::to_public_key`: multiply the standard basepoint. -/
def to_public_key (key : Scalar) : ZMod L := key * RISTRETTO_BASEPOINT

/-- Model of `RistrettoEngine::little_endian_bytes_to_private_key`:
`Scalar::from_canonical_bytes(bytes).ok_or(DLEqError::InvalidScalar)` —
succeeds exactly when the little-endian value is below the order. -/
def little_endian_bytes_to_private_key (bytes : List ℕ) : Except DLEqError Scalar :=
  if keyVal bytes < L then .ok ((keyVal bytes : ℕ) : Scalar) else .error .invalidScalar

/-- Model of `RistrettoEngine::private_key_to_little_endian_bytes` (`Scalar::to_bytes`). -/
def private_key_to_little_endian_bytes (key : Scalar) : List ℕ := leBytes 32 key.val

/-- Model of `RistrettoEngine::generate_commitments` (ristretto.rs lines 71-110).
The function returns a plain `Vec`; after the loop it evaluates
`Scalar::from_canonical_bytes(key).expect("Generating commitments for an
invalid Ristretto key")`, so a non-canonical key makes it panic, modelled
as `none`.  The `debug_assert_eq!` self-checks are compiled out of release
builds and are not part of the returned value. -/
def generate_commitments (h : Scalar) (rand : ℕ → Scalar) (key : List ℕ)
    (bits : ℕ) : Option (List (Commitment (ZMod L))) :=
  let commitments := genLoop (ristOps h) rand key bits bits 0 0 1
  if keyVal key < L then some commitments else none

/-- Accumulation loop of `RistrettoEngine::reconstruct_key`:
`res += comm * power_of_two; power_of_two *= two`. -/
def reconstruct_loop : List (ZMod L) → ZMod L → Scalar → ZMod L
  | [], res, _ => res
  | c :: rest, res, pow => reconstruct_loop rest (res + pow * c) (pow * 2)

/-- Model of `RistrettoEngine::reconstruct_key` (ristretto.rs lines 124-133): weighted
sum of the supplied points; always `Ok` (prime-order group, no torsion
check). -/
def reconstruct_key (commitments : List (ZMod L)) : Except DLEqError (ZMod L) :=
  .ok (reconstruct_loop commitments 0 1)

/-- Model of `ristretto::Signature`: nonce commitment point and response scalar. -/
structure Signature where
  R : ZMod L
  s : Scalar
  deriving DecidableEq

/-- Model of `RistrettoEngine::sign` (ristretto.rs lines 139-149): the nonce is
`Scalar::from_hash(Blake2b(key.to_bytes() ‖ message))` (deterministic, no
RNG input), `R = k·G`, and `s = k - key * from_bytes_mod_order(
Blake2b(R.compress() ‖ message)[..32])`.  `blake` is the external Blake2b
collaborator (64-byte digest) and `compress` the Ristretto point
compression. -/
def sign (blake : List ℕ → List ℕ) (compress : ZMod L → List ℕ)
    (key : Scalar) (message : List ℕ) : Signature :=
  let k : Scalar := wideReduce (blake (private_key_to_little_endian_bytes key ++ message))
  let R := RISTRETTO_BASEPOINT * k
  let to_hash := compress R ++ message
  let s := k - key * narrowReduce32 (blake to_hash)
  { R := R, s := s }

/-- Model of `RistrettoEngine::verify_signature` (ristretto.rs lines 151-160): the
challenge is `from_bytes_mod_order(Blake2b(R.compress() ‖ message)[..32])`
and the acceptance test is `vartime_double_scalar_mul_basepoint(&c,
&public_key, &s) == R`, i.e. `c·pubkey + s·G == R`. -/
def verify_signature (blake : List ℕ → List ℕ) (compress : ZMod L → List ℕ)
    (public_key : ZMod L) (message : List ℕ) (signature : Signature) :
    Except DLEqError Unit :=
  let to_hash := compress signature.R ++ message
  let c := narrowReduce32 (blake to_hash)
  if c * public_key + signature.s * RISTRETTO_BASEPOINT = signature.R then .ok ()
  else .error .invalidSignature

end RistrettoEngine

/-- Full Ed25519 curve group `Z/L × Z/8`: prime-order component (discrete
log with respect to the Ed25519 basepoint) and torsion component. -/
abbrev EPoint := ZMod L × ZMod 8

/-- Addition of Edwards points. -/
def edAdd (a b : EPoint) : EPoint := (a.1 + b.1, a.2 + b.2)

/-- Subtraction of Edwards points. -/
def edSub (a b : EPoint) : EPoint := (a.1 - b.1, a.2 - b.2)

/-- Multiplication of a (possibly torsioned) Edwards point by a scalar: the
torsion part is multiplied by the canonical representative reduced mod 8,
exactly as dalek multiplies by the canonical scalar encoding. -/
def edSmul (s : Scalar) (p : EPoint) : EPoint := (s * p.1, (s.val : ZMod 8) * p.2)

/-- Model of `ED25519_BASEPOINT_POINT`: dlog 1, torsion-free. -/
def ED25519_BASEPOINT : EPoint := (1, 0)

/-- Ed25519 `ALT_BASEPOINT` (Monero's `H`): unknown discrete log `h`,
torsion-free by construction (`mul_by_cofactor` in the derivation). -/
def edAltBasepoint (h : Scalar) : EPoint := (h, 0)

/-- Edwards point operations packaged for the shared commitment loop. -/
def edOps (h : Scalar) : PointOps EPoint where
  zero := (0, 0)
  add := edAdd
  sub := edSub
  smul := edSmul
  basepoint := ED25519_BASEPOINT
  altBasepoint := edAltBasepoint h

namespace Ed25519Engine

/-- Modelled from the spec: the crate-root constant `SHARED_KEY_BITS` used by
`dl_eq_generate_commitments` is not under `src/`; per spec section 4.1/4.2
the bit width for the curve25519 groups is `scalar_bits() = 252`. -/
def SHARED_KEY_BITS : ℕ := 252

/-- Model of `Ed25519Engine::to_public_key`: multiply the standard basepoint. -/
def to_public_key (key : Scalar) : EPoint := edSmul key ED25519_BASEPOINT

/-- Model of `Ed25519Engine::bytes_to_private_key`:
`Ok(Scalar::from_bytes_mod_order(bytes))` — always succeeds, silently
reducing the little-endian value modulo the order. -/
def bytes_to_private_key (bytes : List ℕ) : Except String Scalar :=
  .ok ((keyVal bytes : ℕ) : Scalar)

/-- Model of `Ed25519Engine::little_endian_bytes_to_private_key`, which simply calls
`bytes_to_private_key`. -/
def little_endian_bytes_to_private_key (bytes : List ℕ) : Except String Scalar :=
  bytes_to_private_key bytes

/-- Model of `Ed25519Engine::dl_eq_generate_commitments` (ed25519_engine.rs lines
98-133): same loop over `SHARED_KEY_BITS` bits, then
`Scalar::from_canonical_bytes(key).ok_or(anyhow!(...))?` turns a
non-canonical key into an explicit error.  `debug_assert_eq!` self-checks
are compiled out of release builds. -/
def dl_eq_generate_commitments (h : Scalar) (rand : ℕ → Scalar) (key : List ℕ) :
    Except String (List (Commitment EPoint)) :=
  let commitments := genLoop (edOps h) rand key SHARED_KEY_BITS SHARED_KEY_BITS 0 0 1
  if keyVal key < L then .ok commitments
  else .error "Generating commitments for too large scalar"

/-- Accumulation loop of `Ed25519Engine::dl_eq_reconstruct_key`. -/
def reconstruct_loop : List EPoint → EPoint → Scalar → EPoint
  | [], res, _ => res
  | c :: rest, res, pow => reconstruct_loop rest (edAdd res (edSmul pow c)) (pow * 2)

/-- Model of `Ed25519Engine::dl_eq_reconstruct_key` (ed25519_engine.rs lines 147-159):
weighted sum of the supplied points, then `is_torsion_free` check — a
nonzero torsion component is rejected with the torsion error. -/
def dl_eq_reconstruct_key (commitments : List EPoint) : Except String EPoint :=
  let res := reconstruct_loop commitments (0, 0) 1
  if res.2 = 0 then .ok res else .error "DLEQ public key has torsion"

/-- Model of `ed25519_engine::Signature`. -/
structure Signature where
  R : EPoint
  s : Scalar
  deriving DecidableEq

/-- Model of `Ed25519Engine::<D>::sign` (ed25519_engine.rs lines 183-201): the nonce
`r` is drawn from `OsRng`, modelled as an explicit argument; the challenge
is the wide reduction of `D(R.compress() ‖ A.compress() ‖ message)` and
`s = r + c * key`.  `blake` models the digest parameter `D` and `compress`
the Edwards point compression. -/
def sign (blake : List ℕ → List ℕ) (compress : EPoint → List ℕ)
    (r : Scalar) (key : Scalar) (message : List ℕ) : Signature :=
  let R := edSmul r ED25519_BASEPOINT
  let A := edSmul key ED25519_BASEPOINT
  let c := wideReduce (blake (compress R ++ compress A ++ message))
  { R := R, s := r + c * key }

/-- Model of `Ed25519Engine::<D>::verify_signature` (ed25519_engine.rs lines 203-219):
challenge is the wide reduction of `D(R.compress() ‖ pubkey.compress() ‖
message)`; accepts iff `s·G - c·pubkey == R`, else the "Bad signature"
error. -/
def verify_signature (blake : List ℕ → List ℕ) (compress : EPoint → List ℕ)
    (public_key : EPoint) (message : List ℕ) (signature : Signature) :
    Except String Unit :=
  let c := wideReduce (blake (compress signature.R ++ compress public_key ++ message))
  let expected_R := edSub (edSmul signature.s ED25519_BASEPOINT) (edSmul c public_key)
  if expected_R = signature.R then .ok () else .error "Bad signature"

end Ed25519Engine

/-- Modelled from the spec's words, solely for the comparison in claim C2:
"`verify_signature`: c = WideHash(R‖pubkey‖message) mod order; accept iff
s·G − c·pubkey == R; else bad signature", read against the Ristretto
engine's types. -/
def spec_verify_signature (blake : List ℕ → List ℕ) (compress : ZMod L → List ℕ)
    (public_key : ZMod L) (message : List ℕ) (signature : RistrettoEngine.Signature) :
    Except DLEqError Unit :=
  let c := wideReduce (blake (compress signature.R ++ compress public_key ++ message))
  if signature.s * RISTRETTO_BASEPOINT - c * public_key = signature.R then .ok ()
  else .error .invalidSignature

/-- Commitment record emitted by iteration `idx` of the loop when the
blinding key drawn or solved there is `b`. -/
def mkCommit {P : Type} (E : PointOps P) (key : List ℕ) (idx : ℕ) (b : Scalar) :
    Commitment P :=
  let base := E.smul b E.altBasepoint
  if keyBit key idx = 1 then ⟨b, E.add base E.basepoint, base⟩
  else ⟨b, base, E.sub base E.basepoint⟩

theorem genLoop_length {P : Type} (E : PointOps P) (rand : ℕ → Scalar)
    (key : List ℕ) (bits : ℕ) :
    ∀ n i total pow, (genLoop E rand key bits n i total pow).length = n := by
  intro n
  induction n with
  | zero => intro i total pow; rfl
  | succ m ih => intro i total pow; simp [genLoop, ih]

theorem genLoop_getD_shape {P : Type} (E : PointOps P) (rand : ℕ → Scalar)
    (key : List ℕ) (bits : ℕ) (d : Commitment P) :
    ∀ n i total pow j, j < n →
      ∃ b : Scalar,
        (genLoop E rand key bits n i total pow).getD j d = mkCommit E key (i + j) b := by
  intro n
  induction n with
  | zero => intro i total pow j hj; omega
  | succ m ih =>
    intro i total pow j hj
    cases j with
    | zero =>
      refine ⟨if i = bits - 1 then -total * sinvert pow else rand i, ?_⟩
      simp only [genLoop, List.getD_cons_zero, mkCommit, Nat.add_zero]
      by_cases hb : keyBit key i = 1 <;> simp [hb]
    | succ j2 =>
      have hrec := ih (i + 1) (total + (if i = bits - 1 then -total * sinvert pow else rand i) * pow)
        (pow * 2) j2 (by omega)
      rcases hrec with ⟨b, hb⟩
      refine ⟨b, ?_⟩
      simp only [genLoop, List.getD_cons_succ]
      rw [hb]
      congr 1
      omega

theorem genLoop_blinding_rand {P : Type} (E : PointOps P) (rand : ℕ → Scalar)
    (key : List ℕ) (bits : ℕ) (d : Commitment P) :
    ∀ n i total pow j, i + n = bits → j + 1 < n →
      ((genLoop E rand key bits n i total pow).getD j d).blinding_key = rand (i + j) := by
  intro n
  induction n with
  | zero => intro i total pow j hbits hj; omega
  | succ m ih =>
    intro i total pow j hbits hj
    cases j with
    | zero =>
      have hne : ¬ i = bits - 1 := by omega
      simp only [genLoop, List.getD_cons_zero, if_neg hne, Nat.add_zero]
    | succ j2 =>
      have := ih (i + 1) (total + (if i = bits - 1 then -total * sinvert pow else rand i) * pow)
        (pow * 2) j2 (by omega) (by omega)
      simp only [genLoop, List.getD_cons_succ]
      rw [this]
      congr 1
      omega

/-- Loop invariant for the accumulator `blinding_key_total`: once the last
iteration has solved its blinding key, the weighted sum of all emitted
blinding keys cancels the incoming accumulator. -/
theorem genLoop_wsum {P : Type} (E : PointOps P) (rand : ℕ → Scalar)
    (key : List ℕ) (bits : ℕ) :
    ∀ n i (total pow : Scalar), pow = (2 : Scalar) ^ i → i + n = bits → 1 ≤ n →
      total + wsum (genLoop E rand key bits n i total pow) pow = 0 := by
  intro n
  induction n with
  | zero => intro i total pow hpow hbits hn; omega
  | succ m ih =>
    intro i total pow hpow hbits hn
    cases m with
    | zero =>
      have hi : i = bits - 1 := by omega
      simp only [genLoop, wsum, if_pos hi]
      have hinv : sinvert pow * pow = 1 := by rw [hpow]; exact sinvert_pow_two i
      calc total + (-total * sinvert pow * pow + 0)
          = total - total * (sinvert pow * pow) := by ring
        _ = 0 := by rw [hinv]; ring
    | succ m2 =>
      have hne : ¬ i = bits - 1 := by omega
      simp only [genLoop, wsum, if_neg hne]
      have h2 : pow * 2 = (2 : Scalar) ^ (i + 1) := by rw [hpow, pow_succ]
      have hrec := ih (i + 1) (total + rand i * pow) (pow * 2) h2 (by omega) (by omega)
      calc total + (rand i * pow +
              wsum (genLoop E rand key bits (m2 + 1) (i + 1) (total + rand i * pow) (pow * 2)) (pow * 2))
          = (total + rand i * pow) +
              wsum (genLoop E rand key bits (m2 + 1) (i + 1) (total + rand i * pow) (pow * 2)) (pow * 2) := by
            ring
        _ = 0 := hrec

theorem wsum_append {P : Type} :
    ∀ (xs ys : List (Commitment P)) (pow : Scalar),
      wsum (xs ++ ys) pow = wsum xs pow + wsum ys (pow * 2 ^ xs.length) := by
  intro xs
  induction xs with
  | nil => intro ys pow; simp [wsum]
  | cons c rest ih =>
    intro ys pow
    calc wsum ((c :: rest) ++ ys) pow
        = c.blinding_key * pow + wsum (rest ++ ys) (pow * 2) := rfl
      _ = c.blinding_key * pow + (wsum rest (pow * 2) + wsum ys (pow * 2 * 2 ^ rest.length)) := by
          rw [ih]
      _ = (c.blinding_key * pow + wsum rest (pow * 2)) + wsum ys (pow * 2 ^ (rest.length + 1)) := by
          rw [pow_succ]; ring_nf
      _ = wsum (c :: rest) pow + wsum ys (pow * 2 ^ (c :: rest).length) := rfl

theorem drop_length_sub_one {α : Type} (d : α) :
    ∀ l : List α, 1 ≤ l.length → l.drop (l.length - 1) = [l.getD (l.length - 1) d] := by
  intro l
  induction l with
  | nil => intro h; simp at h
  | cons a rest ih =>
    intro _
    cases rest with
    | nil => rfl
    | cons b rest2 =>
      have h1 : 1 ≤ (b :: rest2).length := by simp
      have hstep : (a :: b :: rest2).length - 1 = (b :: rest2).length := by simp
      have e1 : (b :: rest2).length = rest2.length + 1 := rfl
      rw [hstep, e1, List.drop_succ_cons, List.getD_cons_succ]
      have h2 := ih h1
      simp only [e1, Nat.add_sub_cancel] at h2
      exact h2

instance : Fact (1 < L) := ⟨by decide⟩

/-- Zero randomness stream used in concrete evaluations. -/
def zeroRand : ℕ → Scalar := fun _ => 0

/-- Thirty-two 0xFF bytes: little-endian value `2^256 - 1`, far above the
order. -/
def ffBytes32 : List ℕ := List.replicate 32 255

/-- Little-endian bytes of `2^252` (byte 31 is 16, the rest 0): a canonical
scalar whose bit 252 is set, so it does not fit in `scalar_bits() = 252`
low bits. -/
def key2to252 : List ℕ := List.replicate 31 0 ++ [16]

/-- Little-endian bytes of the scalar 1. -/
def oneBytes32 : List ℕ := 1 :: List.replicate 31 0

theorem ristOps_smul (h s p : Scalar) : (ristOps h).smul s p = s * p := rfl

theorem ristOps_alt (h : Scalar) : (ristOps h).altBasepoint = h := rfl

theorem ristOps_basepoint (h : Scalar) : (ristOps h).basepoint = RISTRETTO_BASEPOINT := rfl

theorem ristOps_add (h a b : Scalar) : (ristOps h).add a b = a + b := rfl

theorem ristOps_sub (h a b : Scalar) : (ristOps h).sub a b = a - b := rfl

theorem genLoop_zero_rand_map_commitment (h : Scalar) (key : List ℕ)
    (hkey : ∀ i, i < 252 → keyBit key i = 0) :
    ∀ n i (pow : Scalar), i + n ≤ 252 →
      (genLoop (ristOps h) zeroRand key 252 n i 0 pow).map Commitment.commitment
        = List.replicate n 0 := by
  intro n
  induction n with
  | zero => intro i pow hle; rfl
  | succ m ih =>
    intro i pow hle
    have hbit : keyBit key i = 0 := hkey i (by omega)
    have hbk : (if i = 252 - 1 then -(0 : Scalar) * sinvert pow else zeroRand i) = 0 := by
      split <;> simp [zeroRand]
    simp only [genLoop, hbk, hbit, ristOps_smul, ristOps_alt, ristOps_basepoint, ristOps_add,
      ristOps_sub, List.map_cons, List.replicate_succ, zero_mul, add_zero, zero_add]
    exact congrArg₂ List.cons rfl (ih (i + 1) (pow * 2) (by omega))

theorem reconstruct_loop_replicate_zero :
    ∀ n (res pow : ZMod L),
      RistrettoEngine.reconstruct_loop (List.replicate n 0) res pow = res := by
  intro n
  induction n with
  | zero => intro res pow; rfl
  | succ m ih =>
    intro res pow
    have e : res + pow * (0 : ZMod L) = res := by ring
    calc RistrettoEngine.reconstruct_loop (List.replicate (m + 1) 0) res pow
        = RistrettoEngine.reconstruct_loop (List.replicate m 0) (res + pow * 0) (pow * 2) := rfl
      _ = RistrettoEngine.reconstruct_loop (List.replicate m 0) res (pow * 2) := by rw [e]
      _ = res := ih res (pow * 2)

theorem rist_generate_eq_some (h : Scalar) (rand : ℕ → Scalar) (key : List ℕ)
    (bits : ℕ) (cs : List (Commitment (ZMod L)))
    (hgen : RistrettoEngine.generate_commitments h rand key bits = some cs) :
    cs = genLoop (ristOps h) rand key bits bits 0 0 1 := by
  by_cases hk : keyVal key < L
  · simp only [RistrettoEngine.generate_commitments, if_pos hk, Option.some.injEq] at hgen
    exact hgen.symm
  · simp only [RistrettoEngine.generate_commitments, if_neg hk] at hgen
    exact Option.noConfusion hgen

theorem ed_generate_eq_ok (h : Scalar) (rand : ℕ → Scalar) (key : List ℕ)
    (cse : List (Commitment EPoint))
    (hgen : Ed25519Engine.dl_eq_generate_commitments h rand key = .ok cse) :
    cse = genLoop (edOps h) rand key Ed25519Engine.SHARED_KEY_BITS
        Ed25519Engine.SHARED_KEY_BITS 0 0 1 := by
  by_cases hk : keyVal key < L
  · simp only [Ed25519Engine.dl_eq_generate_commitments, if_pos hk, Except.ok.injEq] at hgen
    exact hgen.symm
  · simp only [Ed25519Engine.dl_eq_generate_commitments, if_neg hk] at hgen
    exact Except.noConfusion hgen

theorem edAdd_zero_left (p : EPoint) : edAdd (0, 0) p = p := by
  simp [edAdd]

theorem edSmul_one (p : EPoint) : edSmul 1 p = p := by
  simp [edSmul, ZMod.val_one]

theorem edAdd_assoc (a b c : EPoint) : edAdd (edAdd a b) c = edAdd a (edAdd b c) := by
  simp [edAdd, add_assoc]

theorem ed_reconstruct_loop_add :
    ∀ (cs : List EPoint) (a b : EPoint) (pow : Scalar),
      Ed25519Engine.reconstruct_loop cs (edAdd a b) pow
        = edAdd a (Ed25519Engine.reconstruct_loop cs b pow) := by
  intro cs
  induction cs with
  | nil => intro a b pow; rfl
  | cons c rest ih =>
    intro a b pow
    calc Ed25519Engine.reconstruct_loop (c :: rest) (edAdd a b) pow
        = Ed25519Engine.reconstruct_loop rest (edAdd (edAdd a b) (edSmul pow c)) (pow * 2) := rfl
      _ = Ed25519Engine.reconstruct_loop rest (edAdd a (edAdd b (edSmul pow c))) (pow * 2) := by
          rw [edAdd_assoc]
      _ = edAdd a (Ed25519Engine.reconstruct_loop rest (edAdd b (edSmul pow c)) (pow * 2)) :=
          ih a (edAdd b (edSmul pow c)) (pow * 2)
      _ = edAdd a (Ed25519Engine.reconstruct_loop (c :: rest) b pow) := rfl

/-- All invariants of a full run of the commitment loop, for an arbitrary
backend: the weighted blinding sum vanishes, the list has `bits` entries,
all blinding keys but the last come from the random stream, and the last
one is `-acc * power_of_two.invert()` for `power_of_two = 2^(bits-1)` and
`acc` the weighted sum of the earlier blinding keys. -/
theorem genLoop_full_invariants {P : Type} (E : PointOps P) (rand : ℕ → Scalar)
    (key : List ℕ) (bits : ℕ) (d : Commitment P) (hbits : 1 ≤ bits) :
    wsum (genLoop E rand key bits bits 0 0 1) 1 = 0
    ∧ (genLoop E rand key bits bits 0 0 1).length = bits
    ∧ (∀ j, j + 1 < bits →
        ((genLoop E rand key bits bits 0 0 1).getD j d).blinding_key = rand j)
    ∧ ((genLoop E rand key bits bits 0 0 1).getD (bits - 1) d).blinding_key
        = -(wsum ((genLoop E rand key bits bits 0 0 1).take (bits - 1)) 1)
            * sinvert ((2 : Scalar) ^ (bits - 1)) := by
  set cs := genLoop E rand key bits bits 0 0 1 with hcs
  have hw : wsum cs 1 = 0 := by
    have := genLoop_wsum E rand key bits bits 0 0 1 (by rw [pow_zero]) (by omega) hbits
    simpa using this
  have hlen : cs.length = bits := genLoop_length E rand key bits bits 0 0 1
  refine ⟨hw, hlen, ?_, ?_⟩
  · intro j hj
    have := genLoop_blinding_rand E rand key bits d bits 0 0 1 j (by omega) hj
    simpa using this
  · have hdrop : cs.drop (bits - 1) = [cs.getD (bits - 1) d] := by
      have hd := drop_length_sub_one d cs (by omega)
      rw [hlen] at hd
      exact hd
    have hsplit : cs.take (bits - 1) ++ cs.drop (bits - 1) = cs := List.take_append_drop _ _
    have hlen_take : (cs.take (bits - 1)).length = bits - 1 := by
      rw [List.length_take, hlen]; omega
    have heq : wsum cs 1 = wsum (cs.take (bits - 1)) 1
        + (cs.getD (bits - 1) d).blinding_key * (1 * 2 ^ (bits - 1)) := by
      conv_lhs => rw [← hsplit]
      rw [wsum_append, hdrop, hlen_take]
      simp [wsum]
    have hb : (cs.getD (bits - 1) d).blinding_key * (2 : Scalar) ^ (bits - 1)
        = -(wsum (cs.take (bits - 1)) 1) := by
      rw [heq] at hw
      linear_combination hw
    calc (cs.getD (bits - 1) d).blinding_key
        = (cs.getD (bits - 1) d).blinding_key
            * ((2 : Scalar) ^ (bits - 1) * sinvert ((2 : Scalar) ^ (bits - 1))) := by
          rw [mul_comm ((2 : Scalar) ^ (bits - 1)), sinvert_pow_two, mul_one]
      _ = ((cs.getD (bits - 1) d).blinding_key * (2 : Scalar) ^ (bits - 1))
            * sinvert ((2 : Scalar) ^ (bits - 1)) := by ring
      _ = -(wsum (cs.take (bits - 1)) 1) * sinvert ((2 : Scalar) ^ (bits - 1)) := by rw [hb]

instance {e a : Type} [DecidableEq e] [DecidableEq a] : DecidableEq (Except e a) :=
  fun x y =>
    match x, y with
    | .ok u, .ok v =>
      if h : u = v then isTrue (by rw [h]) else isFalse (fun hc => h (Except.ok.inj hc))
    | .error u, .error v =>
      if h : u = v then isTrue (by rw [h]) else isFalse (fun hc => h (Except.error.inj hc))
    | .ok _, .error _ => isFalse (fun hc => Except.noConfusion hc)
    | .error _, .ok _ => isFalse (fun hc => Except.noConfusion hc)

theorem edAdd_comm (a b : EPoint) : edAdd a b = edAdd b a := by
  simp [edAdd, add_comm]

theorem rist_verify_ok_iff (blake : List ℕ → List ℕ) (compress : ZMod L → List ℕ)
    (pk : ZMod L) (msg : List ℕ) (sig : RistrettoEngine.Signature) :
    RistrettoEngine.verify_signature blake compress pk msg sig = .ok () ↔
      narrowReduce32 (blake (compress sig.R ++ msg)) * pk + sig.s * RISTRETTO_BASEPOINT
        = sig.R := by
  simp only [RistrettoEngine.verify_signature]
  split <;> rename_i hcond <;> simp [hcond]

theorem rist_verify_error_iff (blake : List ℕ → List ℕ) (compress : ZMod L → List ℕ)
    (pk : ZMod L) (msg : List ℕ) (sig : RistrettoEngine.Signature) :
    RistrettoEngine.verify_signature blake compress pk msg sig = .error .invalidSignature ↔
      ¬ (narrowReduce32 (blake (compress sig.R ++ msg)) * pk + sig.s * RISTRETTO_BASEPOINT
        = sig.R) := by
  simp only [RistrettoEngine.verify_signature]
  split <;> rename_i hcond <;> simp [hcond]

theorem ed_verify_ok_iff (blake : List ℕ → List ℕ) (compress : EPoint → List ℕ)
    (pk : EPoint) (msg : List ℕ) (sig : Ed25519Engine.Signature) :
    Ed25519Engine.verify_signature blake compress pk msg sig = .ok () ↔
      edSub (edSmul sig.s ED25519_BASEPOINT)
          (edSmul (wideReduce (blake (compress sig.R ++ compress pk ++ msg))) pk)
        = sig.R := by
  simp only [Ed25519Engine.verify_signature]
  split <;> rename_i hcond
  · exact iff_of_true rfl hcond
  · exact iff_of_false (by simp) hcond

theorem ed_verify_error_iff (blake : List ℕ → List ℕ) (compress : EPoint → List ℕ)
    (pk : EPoint) (msg : List ℕ) (sig : Ed25519Engine.Signature) :
    Ed25519Engine.verify_signature blake compress pk msg sig = .error "Bad signature" ↔
      ¬ (edSub (edSmul sig.s ED25519_BASEPOINT)
          (edSmul (wideReduce (blake (compress sig.R ++ compress pk ++ msg))) pk)
        = sig.R) := by
  simp only [Ed25519Engine.verify_signature]
  split <;> rename_i hcond
  · exact iff_of_false (by simp) (not_not_intro hcond)
  · exact iff_of_true rfl hcond

/-- Constant 64-byte digest with value 1, used as a degenerate but
type-correct instantiation of the digest parameter. -/
def oneDigest : List ℕ → List ℕ := fun _ => 1 :: List.replicate 63 0

/-- Constant all-zero 64-byte digest. -/
def zeroDigest : List ℕ → List ℕ := fun _ => List.replicate 64 0

/-- Trivial compression function (the signature algebra never inspects
compressed bytes except through the digest). -/
def emptyCompress : ZMod L → List ℕ := fun _ => []

/-- Claim C2, counterexample: for the Ristretto engine the claimed
verification equation is wrong on all three counts (hash input omits the
public key, the reduction is narrow, and the sign convention is `+`):
at this concrete instance the code accepts while the claimed formula
`s·G - c·pubkey = R` rejects. -/
theorem c2_counterexample :
    RistrettoEngine.verify_signature oneDigest emptyCompress 1 [] { R := 1, s := 0 }
        = .ok ()
    ∧ spec_verify_signature oneDigest emptyCompress 1 [] { R := 1, s := 0 }
        = .error .invalidSignature := by
  constructor
  · decide
  · decide

/-- Claim C2 (amended): the Ed25519 engine verifies exactly as the claim
states, with a wide-reduced challenge over `R ‖ pubkey ‖ message` and test
`s·G - c·pubkey = R`; the Ristretto engine instead hashes `R ‖ message`
only, reduces the first 32 digest bytes, and accepts iff
`c·pubkey + s·G = R`; in both cases any other outcome is the engine's
bad-signature error. -/
theorem c2_verify_characterization :
    (∀ (blake : List ℕ → List ℕ) (compress : EPoint → List ℕ) (pk : EPoint)
        (msg : List ℕ) (sig : Ed25519Engine.Signature),
      (Ed25519Engine.verify_signature blake compress pk msg sig = .ok () ↔
        edSub (edSmul sig.s ED25519_BASEPOINT)
            (edSmul (wideReduce (blake (compress sig.R ++ compress pk ++ msg))) pk)
          = sig.R)
      ∧ (Ed25519Engine.verify_signature blake compress pk msg sig = .ok ()
          ∨ Ed25519Engine.verify_signature blake compress pk msg sig
              = .error "Bad signature"))
    ∧ (∀ (blake : List ℕ → List ℕ) (compress : ZMod L → List ℕ) (pk : ZMod L)
        (msg : List ℕ) (sig : RistrettoEngine.Signature),
      (RistrettoEngine.verify_signature blake compress pk msg sig = .ok () ↔
        narrowReduce32 (blake (compress sig.R ++ msg)) * pk
            + sig.s * RISTRETTO_BASEPOINT = sig.R)
      ∧ (RistrettoEngine.verify_signature blake compress pk msg sig = .ok ()
          ∨ RistrettoEngine.verify_signature blake compress pk msg sig
              = .error .invalidSignature)) := by
  constructor
  · intro blake compress pk msg sig
    refine ⟨ed_verify_ok_iff blake compress pk msg sig, ?_⟩
    by_cases hcond : edSub (edSmul sig.s ED25519_BASEPOINT)
        (edSmul (wideReduce (blake (compress sig.R ++ compress pk ++ msg))) pk) = sig.R
    · exact Or.inl ((ed_verify_ok_iff blake compress pk msg sig).mpr hcond)
    · exact Or.inr ((ed_verify_error_iff blake compress pk msg sig).mpr hcond)
  · intro blake compress pk msg sig
    refine ⟨rist_verify_ok_iff blake compress pk msg sig, ?_⟩
    by_cases hcond : narrowReduce32 (blake (compress sig.R ++ msg)) * pk
        + sig.s * RISTRETTO_BASEPOINT = sig.R
    · exact Or.inl ((rist_verify_ok_iff blake compress pk msg sig).mpr hcond)
    · exact Or.inr ((rist_verify_error_iff blake compress pk msg sig).mpr hcond)

/-- Claim C6 (confirmed): the Ed25519 engine's `dl_eq_reconstruct_key`
fails with the torsion error exactly when the weighted sum of the supplied
points has a nonzero torsion component — in particular after perturbing a
previously valid commitment set by a small-order element — while the
prime-order Ristretto engine's `reconstruct_key` never fails. -/
theorem c6_torsion_rejection :
    (∀ comms : List EPoint,
        (Ed25519Engine.reconstruct_loop comms (0, 0) 1).2 ≠ 0 →
          Ed25519Engine.dl_eq_reconstruct_key comms = .error "DLEQ public key has torsion")
    ∧ (∀ (p : EPoint) (rest : List EPoint) (r : EPoint) (t : ZMod 8),
        Ed25519Engine.dl_eq_reconstruct_key (p :: rest) = .ok r → t ≠ 0 →
          Ed25519Engine.dl_eq_reconstruct_key (edAdd p (0, t) :: rest)
            = .error "DLEQ public key has torsion")
    ∧ (∀ comms : List (ZMod L),
        RistrettoEngine.reconstruct_key comms
          = .ok (RistrettoEngine.reconstruct_loop comms 0 1)) := by
  have herr : ∀ comms : List EPoint,
      (Ed25519Engine.reconstruct_loop comms (0, 0) 1).2 ≠ 0 →
        Ed25519Engine.dl_eq_reconstruct_key comms
          = .error "DLEQ public key has torsion" := by
    intro comms hne
    simp only [Ed25519Engine.dl_eq_reconstruct_key, if_neg hne]
  refine ⟨herr, ?_, fun comms => rfl⟩
  intro p rest r t hok ht
  have hfree : (Ed25519Engine.reconstruct_loop (p :: rest) (0, 0) 1).2 = 0 := by
    by_cases hz : (Ed25519Engine.reconstruct_loop (p :: rest) (0, 0) 1).2 = 0
    · exact hz
    · rw [herr (p :: rest) hz] at hok
      exact Except.noConfusion hok
  have hstep : ∀ q : EPoint, Ed25519Engine.reconstruct_loop (q :: rest) (0, 0) 1
      = Ed25519Engine.reconstruct_loop rest q 2 := by
    intro q
    show Ed25519Engine.reconstruct_loop rest (edAdd (0, 0) (edSmul 1 q)) (1 * 2)
      = Ed25519Engine.reconstruct_loop rest q 2
    rw [edSmul_one, edAdd_zero_left, one_mul]
  have hpert : Ed25519Engine.reconstruct_loop (edAdd p (0, t) :: rest) (0, 0) 1
      = edAdd (0, t) (Ed25519Engine.reconstruct_loop rest p 2) := by
    rw [hstep (edAdd p (0, t)), edAdd_comm p (0, t), ed_reconstruct_loop_add]
  apply herr
  rw [hpert]
  have hrest : (Ed25519Engine.reconstruct_loop rest p 2).2 = 0 := by
    rw [hstep p] at hfree
    exact hfree
  show t + (Ed25519Engine.reconstruct_loop rest p 2).2 ≠ 0
  rw [hrest, add_zero]
  exact ht

/-- Witness for C6 at concrete torsioned inputs. -/
theorem c6_witness :
    Ed25519Engine.dl_eq_reconstruct_key [((0 : ZMod L), (1 : ZMod 8))]
        = .error "DLEQ public key has torsion"
    ∧ Ed25519Engine.dl_eq_reconstruct_key [edAdd ((0 : ZMod L), (0 : ZMod 8)) (0, 1)]
        = .error "DLEQ public key has torsion" :=
  ⟨c6_torsion_rejection.1 [((0 : ZMod L), (1 : ZMod 8))] (by decide),
   c6_torsion_rejection.2.1 ((0 : ZMod L), (0 : ZMod 8)) [] ((0 : ZMod L), (0 : ZMod 8)) 1
     (by decide) (by decide)⟩

/-- Claim C7, counterexample: the Ristretto engine, handed key bytes above
the order, panics on the `expect` (modelled `none`) — it has no failure
channel at all (it returns a plain `Vec`), so the rejection is an
uncatchable fault, not an explicit failure result. -/
theorem c7_counterexample :
    RistrettoEngine.generate_commitments 1 zeroRand ffBytes32 252 = none := by
  decide

/-- Claim C7 (amended): for out-of-range key bytes the Ed25519 engine
rejects with an explicit error result, while the Ristretto engine panics
(its `generate_commitments` returns a plain `Vec` and unwraps
`from_canonical_bytes` with `expect`). -/
theorem c7_out_of_range_rejection :
    (∀ (h : Scalar) (rand : ℕ → Scalar) (key : List ℕ), L ≤ keyVal key →
      Ed25519Engine.dl_eq_generate_commitments h rand key
        = .error "Generating commitments for too large scalar")
    ∧ (∀ (h : Scalar) (rand : ℕ → Scalar) (key : List ℕ) (bits : ℕ), L ≤ keyVal key →
      RistrettoEngine.generate_commitments h rand key bits = none) := by
  constructor
  · intro h rand key hk
    simp only [Ed25519Engine.dl_eq_generate_commitments, if_neg (not_lt.mpr hk)]
  · intro h rand key bits hk
    simp only [RistrettoEngine.generate_commitments, if_neg (not_lt.mpr hk)]

/-- Witness for the amended C7 at concrete inputs. -/
theorem c7_witness :
    Ed25519Engine.dl_eq_generate_commitments 1 zeroRand ffBytes32
        = .error "Generating commitments for too large scalar"
    ∧ RistrettoEngine.generate_commitments 1 zeroRand ffBytes32 252 = none :=
  ⟨c7_out_of_range_rejection.1 1 zeroRand ffBytes32 (by decide),
   c7_out_of_range_rejection.2 1 zeroRand ffBytes32 252 (by decide)⟩

/-- Claim C8, counterexample: the Ed25519 engine's
`little_endian_bytes_to_private_key` accepts 32 bytes of value `2^256 - 1`
(far above the order) and silently reduces them — the canonical
representative of the result differs from the input value. -/
theorem c8_counterexample :
    Ed25519Engine.little_endian_bytes_to_private_key ffBytes32
        = .ok ((keyVal ffBytes32 : ℕ) : Scalar)
    ∧ L ≤ keyVal ffBytes32
    ∧ ZMod.val ((keyVal ffBytes32 : ℕ) : Scalar) ≠ keyVal ffBytes32 := by
  refine ⟨rfl, by decide, by decide⟩

/-- Claim C8 (amended): the Ristretto engine's decode succeeds exactly on
canonical-range inputs and rejects larger values with `InvalidScalar`; the
Ed25519 engine's decode never rejects and reduces modulo the order. -/
theorem c8_canonical_decode :
    (∀ bytes : List ℕ, keyVal bytes < L →
      RistrettoEngine.little_endian_bytes_to_private_key bytes
        = .ok ((keyVal bytes : ℕ) : Scalar))
    ∧ (∀ bytes : List ℕ, L ≤ keyVal bytes →
      RistrettoEngine.little_endian_bytes_to_private_key bytes = .error .invalidScalar)
    ∧ (∀ bytes : List ℕ,
      Ed25519Engine.little_endian_bytes_to_private_key bytes
        = .ok ((keyVal bytes : ℕ) : Scalar)) := by
  refine ⟨?_, ?_, fun bytes => rfl⟩
  · intro bytes hb
    simp only [RistrettoEngine.little_endian_bytes_to_private_key, if_pos hb]
  · intro bytes hb
    simp only [RistrettoEngine.little_endian_bytes_to_private_key,
      if_neg (not_lt.mpr hb)]

/-- Witness for the amended C8 at concrete inputs. -/
theorem c8_witness :
    RistrettoEngine.little_endian_bytes_to_private_key oneBytes32
        = .ok ((keyVal oneBytes32 : ℕ) : Scalar)
    ∧ RistrettoEngine.little_endian_bytes_to_private_key ffBytes32
        = .error .invalidScalar :=
  ⟨c8_canonical_decode.1 oneBytes32 (by decide),
   c8_canonical_decode.2.1 ffBytes32 (by decide)⟩

/-- Claim C9, counterexample: `generate_commitments` with `bits = 0` and a
valid key succeeds and returns the empty commitment vector — there is no
input-validation error. -/
theorem c9_counterexample :
    RistrettoEngine.generate_commitments 1 zeroRand oneBytes32 0 = some [] := by
  decide

/-- Claim C9 (amended): for every canonical key, `bits = 0` is not
validated: the loop body never runs and the function succeeds with an
empty vector (release semantics; the internal debug assertion would panic
in debug builds whenever `key·G` is not the identity). -/
theorem c9_bits_zero_no_validation (h : Scalar) (rand : ℕ → Scalar) (key : List ℕ)
    (hkey : keyVal key < L) :
    RistrettoEngine.generate_commitments h rand key 0 = some [] := by
  simp only [RistrettoEngine.generate_commitments, if_pos hkey]
  rfl

/-- Witness for the amended C9 at concrete inputs. -/
theorem c9_witness :
    RistrettoEngine.generate_commitments 1 zeroRand oneBytes32 0 = some [] :=
  c9_bits_zero_no_validation 1 zeroRand oneBytes32 (by decide)

/-- Claim C10 (confirmed): the Ristretto `sign` consumes no randomness
source (its embedding takes none, mirroring the Rust signature, unlike the
Ed25519 engine whose nonce argument models `OsRng`): any two invocations
coincide, and the nonce commitment is the wide hash of the key bytes
followed by the message times the basepoint. -/
theorem c10_sign_deterministic (blake : List ℕ → List ℕ)
    (compress : ZMod L → List ℕ) (key : Scalar) (message : List ℕ) :
    RistrettoEngine.sign blake compress key message
        = RistrettoEngine.sign blake compress key message
    ∧ (RistrettoEngine.sign blake compress key message).R
        = RISTRETTO_BASEPOINT * wideReduce (blake
            (RistrettoEngine.private_key_to_little_endian_bytes key ++ message)) :=
  ⟨rfl, rfl⟩

/-- Claim C3, counterexample: with the constant all-zero digest (a
type-correct instantiation of the engine's digest parameter), a signature
by key 1 also verifies under an altered public key (5 instead of `1·G`)
and under an altered message, so verification does not fail "whenever the
message, the public key, or either signature component is altered". -/
theorem c3_counterexample :
    RistrettoEngine.verify_signature zeroDigest emptyCompress 5 []
        (RistrettoEngine.sign zeroDigest emptyCompress 1 []) = .ok ()
    ∧ RistrettoEngine.to_public_key 1 ≠ 5
    ∧ RistrettoEngine.verify_signature zeroDigest emptyCompress
        (RistrettoEngine.to_public_key 1) [1]
        (RistrettoEngine.sign zeroDigest emptyCompress 1 []) = .ok () := by
  refine ⟨by decide, by decide, by decide⟩

/-- Claim C3 (amended): for every engine, digest, compression, key,
message (and nonce where drawn), signing then verifying succeeds; altering
the response scalar `s` always fails; and two different public keys cannot
both verify one signature when the challenge is a unit — but alterations
of message, public key or `R` are not detected unconditionally for
arbitrary digest instantiations. -/
theorem c3_sign_verify_correctness :
    (∀ (blake : List ℕ → List ℕ) (compress : ZMod L → List ℕ) (k : Scalar) (m : List ℕ),
      RistrettoEngine.verify_signature blake compress (RistrettoEngine.to_public_key k) m
        (RistrettoEngine.sign blake compress k m) = .ok ())
    ∧ (∀ (blake : List ℕ → List ℕ) (compress : EPoint → List ℕ) (r k : Scalar) (m : List ℕ),
      Ed25519Engine.verify_signature blake compress (Ed25519Engine.to_public_key k) m
        (Ed25519Engine.sign blake compress r k m) = .ok ())
    ∧ (∀ (blake : List ℕ → List ℕ) (compress : ZMod L → List ℕ) (pk : ZMod L)
        (m : List ℕ) (sig : RistrettoEngine.Signature) (s2 : Scalar),
      RistrettoEngine.verify_signature blake compress pk m sig = .ok () → s2 ≠ sig.s →
        RistrettoEngine.verify_signature blake compress pk m { R := sig.R, s := s2 }
          = .error .invalidSignature)
    ∧ (∀ (blake : List ℕ → List ℕ) (compress : EPoint → List ℕ) (pk : EPoint)
        (m : List ℕ) (sig : Ed25519Engine.Signature) (s2 : Scalar),
      Ed25519Engine.verify_signature blake compress pk m sig = .ok () → s2 ≠ sig.s →
        Ed25519Engine.verify_signature blake compress pk m { R := sig.R, s := s2 }
          = .error "Bad signature")
    ∧ (∀ (blake : List ℕ → List ℕ) (compress : ZMod L → List ℕ) (pk pk2 : ZMod L)
        (m : List ℕ) (sig : RistrettoEngine.Signature),
      RistrettoEngine.verify_signature blake compress pk m sig = .ok () →
      RistrettoEngine.verify_signature blake compress pk2 m sig = .ok () →
      IsUnit (narrowReduce32 (blake (compress sig.R ++ m))) →
        pk2 = pk) := by
  refine ⟨?_, ?_, ?_, ?_, ?_⟩
  · intro blake compress k m
    rw [rist_verify_ok_iff]
    simp only [RistrettoEngine.sign, RistrettoEngine.to_public_key]
    ring
  · intro blake compress r k m
    rw [ed_verify_ok_iff]
    simp only [Ed25519Engine.sign, Ed25519Engine.to_public_key]
    refine Prod.ext_iff.mpr ⟨?_, ?_⟩
    · simp only [edSub, edSmul, ED25519_BASEPOINT]
      ring
    · simp [edSub, edSmul, ED25519_BASEPOINT]
  · intro blake compress pk m sig s2 hok hs
    have hcond := (rist_verify_ok_iff blake compress pk m sig).mp hok
    rw [rist_verify_error_iff]
    show ¬ (narrowReduce32 (blake (compress sig.R ++ m)) * pk
        + s2 * RISTRETTO_BASEPOINT = sig.R)
    intro hc
    have h2 : (s2 - sig.s) * RISTRETTO_BASEPOINT = 0 := by linear_combination hc - hcond
    have h3 : s2 - sig.s = 0 := by
      have hrb : RISTRETTO_BASEPOINT = (1 : ZMod L) := rfl
      rwa [hrb, mul_one] at h2
    exact hs (sub_eq_zero.mp h3)
  · intro blake compress pk m sig s2 hok hs
    have hcond := (ed_verify_ok_iff blake compress pk m sig).mp hok
    rw [ed_verify_error_iff]
    show ¬ (edSub (edSmul s2 ED25519_BASEPOINT)
        (edSmul (wideReduce (blake (compress sig.R ++ compress pk ++ m))) pk) = sig.R)
    intro hc
    have h1 := congrArg Prod.fst (hc.trans hcond.symm)
    simp only [edSub, edSmul, ED25519_BASEPOINT, mul_one] at h1
    exact hs (sub_left_inj.mp h1)
  · intro blake compress pk pk2 m sig h1 h2 hu
    have e1 := (rist_verify_ok_iff blake compress pk m sig).mp h1
    have e2 := (rist_verify_ok_iff blake compress pk2 m sig).mp h2
    have h3 : narrowReduce32 (blake (compress sig.R ++ m)) * (pk2 - pk) = 0 := by
      linear_combination e2 - e1
    have h4 : pk2 - pk = 0 := by
      refine hu.mul_left_cancel ?_
      rw [mul_zero]
      exact h3
    exact sub_eq_zero.mp h4

/-- Witness for the amended C3 at concrete inputs. -/
theorem c3_witness :
    RistrettoEngine.verify_signature zeroDigest emptyCompress
        (RistrettoEngine.to_public_key 1) []
        (RistrettoEngine.sign zeroDigest emptyCompress 1 []) = .ok ()
    ∧ RistrettoEngine.verify_signature zeroDigest emptyCompress
        (RistrettoEngine.to_public_key 1) []
        { R := (RistrettoEngine.sign zeroDigest emptyCompress 1 []).R, s := 1 }
        = .error .invalidSignature
    ∧ (1 : ZMod L) = 1 :=
  ⟨c3_sign_verify_correctness.1 zeroDigest emptyCompress 1 [],
   c3_sign_verify_correctness.2.2.1 zeroDigest emptyCompress
     (RistrettoEngine.to_public_key 1) [] (RistrettoEngine.sign zeroDigest emptyCompress 1 [])
     1 (by decide) (by decide),
   c3_sign_verify_correctness.2.2.2.2 oneDigest emptyCompress 1 1 []
     { R := 1, s := 0 } (by decide) (by decide) ⟨1, by decide⟩⟩

/-- Claim C1, code-bug evidence: the canonical key `2^252` needs 253 bits,
but `generate_commitments` with `bits = scalar_bits() = 252` only encodes
the low 252 bits, so reconstructing the produced commitments yields the
identity instead of `key·G` — for every alternate basepoint `h` (shown
here with the zero blinding stream, where every commitment is the
identity).  This is exactly the equality asserted by the function's own
`debug_assert_eq!`. -/
theorem c1_reconstruct_mismatch :
    ∀ h : Scalar,
      (RistrettoEngine.generate_commitments h zeroRand key2to252
          RistrettoEngine.scalar_bits).map
          (fun cs => RistrettoEngine.reconstruct_key (cs.map Commitment.commitment))
        = some (.ok 0)
      ∧ RistrettoEngine.to_public_key ((keyVal key2to252 : ℕ) : Scalar) ≠ 0
      ∧ keyVal key2to252 < L := by
  intro h
  refine ⟨?_, ?_, by decide⟩
  · have hkey : ∀ i, i < 252 → keyBit key2to252 i = 0 := by decide
    have hmap := genLoop_zero_rand_map_commitment h key2to252 hkey 252 0 1 (by omega)
    have hgen : RistrettoEngine.generate_commitments h zeroRand key2to252 252
        = some (genLoop (ristOps h) zeroRand key2to252 252 252 0 0 1) := by
      simp only [RistrettoEngine.generate_commitments,
        if_pos (by decide : keyVal key2to252 < L)]
    show (RistrettoEngine.generate_commitments h zeroRand key2to252 252).map
        (fun cs => RistrettoEngine.reconstruct_key (cs.map Commitment.commitment))
      = some (.ok 0)
    rw [hgen]
    simp only [Option.map_some', RistrettoEngine.reconstruct_key]
    rw [hmap, reconstruct_loop_replicate_zero 252 0 1]
  · intro hz
    have hval : keyVal key2to252 = 2 ^ 252 := by decide
    have hrb : RistrettoEngine.to_public_key ((keyVal key2to252 : ℕ) : Scalar)
        = ((2 ^ 252 : ℕ) : Scalar) := by
      rw [RistrettoEngine.to_public_key, hval]
      exact mul_one _
    rw [hrb] at hz
    have hv := congrArg ZMod.val hz
    rw [ZMod.val_natCast, ZMod.val_zero] at hv
    exact absurd hv (by decide)

/-- Default Ristretto commitment record for `List.getD`. -/
def rdflt : Commitment (ZMod L) :=
  { blinding_key := 0, commitment := 0, commitment_minus_one := 0 }

/-- Default Ed25519 commitment record for `List.getD`. -/
def edflt : Commitment EPoint :=
  { blinding_key := 0, commitment := (0, 0), commitment_minus_one := (0, 0) }

/-- Claim C4 (confirmed): every commitment set produced by either engine's
generator with `bits ≥ 1` satisfies `Σ_i blinding_key_i · 2^i ≡ 0` modulo
the order; the blinding keys before the last index are the outputs of the
randomness source, and the last one is `-acc · power⁻¹` for
`power = 2^(bits-1)` and `acc` the weighted sum of the earlier keys. -/
theorem c4_blinding_sum_invariant (h : Scalar) (rand : ℕ → Scalar) (key : List ℕ)
    (bits : ℕ) (cs : List (Commitment (ZMod L))) (cse : List (Commitment EPoint))
    (hgen : RistrettoEngine.generate_commitments h rand key bits = some cs)
    (hgene : Ed25519Engine.dl_eq_generate_commitments h rand key = .ok cse)
    (hbits : 1 ≤ bits) :
    (wsum cs 1 = 0 ∧ cs.length = bits
      ∧ (∀ j, j + 1 < bits → (cs.getD j rdflt).blinding_key = rand j)
      ∧ (cs.getD (bits - 1) rdflt).blinding_key
          = -(wsum (cs.take (bits - 1)) 1) * sinvert ((2 : Scalar) ^ (bits - 1)))
    ∧ (wsum cse 1 = 0 ∧ cse.length = Ed25519Engine.SHARED_KEY_BITS
      ∧ (∀ j, j + 1 < Ed25519Engine.SHARED_KEY_BITS →
          (cse.getD j edflt).blinding_key = rand j)
      ∧ (cse.getD (Ed25519Engine.SHARED_KEY_BITS - 1) edflt).blinding_key
          = -(wsum (cse.take (Ed25519Engine.SHARED_KEY_BITS - 1)) 1)
              * sinvert ((2 : Scalar) ^ (Ed25519Engine.SHARED_KEY_BITS - 1))) := by
  obtain rfl : cs = _ := rist_generate_eq_some h rand key bits cs hgen
  obtain rfl : cse = _ := ed_generate_eq_ok h rand key cse hgene
  constructor
  · exact genLoop_full_invariants (ristOps h) rand key bits rdflt hbits
  · exact genLoop_full_invariants (edOps h) rand key Ed25519Engine.SHARED_KEY_BITS edflt
      (by decide)

/-- Witness for C4 at `bits = 1` (Ristretto) and the fixed shared width
(Ed25519), with the zero randomness stream and key 1. -/
theorem c4_witness :
    wsum (genLoop (ristOps 1) zeroRand oneBytes32 1 1 0 0 1) 1 = 0
    ∧ wsum (genLoop (edOps 1) zeroRand oneBytes32 Ed25519Engine.SHARED_KEY_BITS
        Ed25519Engine.SHARED_KEY_BITS 0 0 1) 1 = 0 :=
  ⟨(c4_blinding_sum_invariant 1 zeroRand oneBytes32 1 _ _ rfl rfl (by decide)).1.1,
   (c4_blinding_sum_invariant 1 zeroRand oneBytes32 1 _ _ rfl rfl (by decide)).2.1⟩

theorem edOps_smul (h s : Scalar) (p : EPoint) : (edOps h).smul s p = edSmul s p := rfl

theorem edOps_alt (h : Scalar) : (edOps h).altBasepoint = edAltBasepoint h := rfl

theorem edOps_basepoint (h : Scalar) : (edOps h).basepoint = ED25519_BASEPOINT := rfl

theorem edOps_add (h : Scalar) (a b : EPoint) : (edOps h).add a b = edAdd a b := rfl

theorem edOps_sub (h : Scalar) (a b : EPoint) : (edOps h).sub a b = edSub a b := rfl

theorem rb_add_ne (x : ZMod L) : x + RISTRETTO_BASEPOINT ≠ x := by
  intro hx
  have h1 : RISTRETTO_BASEPOINT = 0 := by linear_combination hx
  exact one_ne_zero (show (1 : ZMod L) = 0 from h1)

theorem rb_sub_ne (x : ZMod L) : x - RISTRETTO_BASEPOINT ≠ x := by
  intro hx
  have h1 : RISTRETTO_BASEPOINT = 0 := by linear_combination -hx
  exact one_ne_zero (show (1 : ZMod L) = 0 from h1)

theorem ed_add_bp_ne (x : EPoint) : edAdd x ED25519_BASEPOINT ≠ x := by
  intro hx
  have h1 := congrArg Prod.fst hx
  simp only [edAdd, ED25519_BASEPOINT] at h1
  exact one_ne_zero (show (1 : ZMod L) = 0 by linear_combination h1)

theorem ed_sub_bp_ne (x : EPoint) : edSub x ED25519_BASEPOINT ≠ x := by
  intro hx
  have h1 := congrArg Prod.fst hx
  simp only [edSub, ED25519_BASEPOINT] at h1
  exact one_ne_zero (show (1 : ZMod L) = 0 by linear_combination -h1)

theorem edSub_add_cancel (x y : EPoint) : edAdd (edSub x y) y = x := by
  simp [edAdd, edSub]

/-- Claim C5 (confirmed): for every record produced at index `i` by either
engine's generator, the `commitment` field equals `commitment_minus_one`
plus the standard basepoint; exactly one of the two fields equals
`blinding_key·H`; and which one it is encodes bit `i` of the key: bit 1
gives `commitment = b·H + G`, `commitment_minus_one = b·H`; bit 0 gives
`commitment = b·H`, `commitment_minus_one = b·H - G`. -/
theorem c5_per_bit_structure (h : Scalar) (rand : ℕ → Scalar) (key : List ℕ)
    (bits : ℕ) (cs : List (Commitment (ZMod L))) (cse : List (Commitment EPoint))
    (hgen : RistrettoEngine.generate_commitments h rand key bits = some cs)
    (hgene : Ed25519Engine.dl_eq_generate_commitments h rand key = .ok cse)
    (i : ℕ) (hi : i < bits) (ie : ℕ) (hie : ie < Ed25519Engine.SHARED_KEY_BITS) :
    ((cs.getD i rdflt).commitment
        = (cs.getD i rdflt).commitment_minus_one + RISTRETTO_BASEPOINT
      ∧ (keyBit key i = 1 →
          (cs.getD i rdflt).commitment_minus_one = (cs.getD i rdflt).blinding_key * h
          ∧ (cs.getD i rdflt).commitment
              = (cs.getD i rdflt).blinding_key * h + RISTRETTO_BASEPOINT)
      ∧ (keyBit key i = 0 →
          (cs.getD i rdflt).commitment = (cs.getD i rdflt).blinding_key * h
          ∧ (cs.getD i rdflt).commitment_minus_one
              = (cs.getD i rdflt).blinding_key * h - RISTRETTO_BASEPOINT)
      ∧ ((cs.getD i rdflt).commitment = (cs.getD i rdflt).blinding_key * h
          ↔ ¬ (cs.getD i rdflt).commitment_minus_one
              = (cs.getD i rdflt).blinding_key * h))
    ∧ ((cse.getD ie edflt).commitment
        = edAdd (cse.getD ie edflt).commitment_minus_one ED25519_BASEPOINT
      ∧ (keyBit key ie = 1 →
          (cse.getD ie edflt).commitment_minus_one
            = edSmul (cse.getD ie edflt).blinding_key (edAltBasepoint h)
          ∧ (cse.getD ie edflt).commitment
              = edAdd (edSmul (cse.getD ie edflt).blinding_key (edAltBasepoint h))
                  ED25519_BASEPOINT)
      ∧ (keyBit key ie = 0 →
          (cse.getD ie edflt).commitment
            = edSmul (cse.getD ie edflt).blinding_key (edAltBasepoint h)
          ∧ (cse.getD ie edflt).commitment_minus_one
              = edSub (edSmul (cse.getD ie edflt).blinding_key (edAltBasepoint h))
                  ED25519_BASEPOINT)
      ∧ ((cse.getD ie edflt).commitment
            = edSmul (cse.getD ie edflt).blinding_key (edAltBasepoint h)
          ↔ ¬ (cse.getD ie edflt).commitment_minus_one
              = edSmul (cse.getD ie edflt).blinding_key (edAltBasepoint h))) := by
  obtain rfl : cs = _ := rist_generate_eq_some h rand key bits cs hgen
  obtain rfl : cse = _ := ed_generate_eq_ok h rand key cse hgene
  constructor
  · obtain ⟨b, hb⟩ := genLoop_getD_shape (ristOps h) rand key bits rdflt bits 0 0 1 i hi
    rw [Nat.zero_add] at hb
    rw [hb]
    simp only [mkCommit, ristOps_smul, ristOps_alt, ristOps_add, ristOps_sub,
      ristOps_basepoint]
    by_cases hbit : keyBit key i = 1
    · rw [if_pos hbit]
      exact ⟨rfl, fun _ => ⟨rfl, rfl⟩,
        fun h0 => absurd (h0.symm.trans hbit) Nat.zero_ne_one,
        iff_of_false (rb_add_ne (b * h)) (not_not_intro rfl)⟩
    · rw [if_neg hbit]
      exact ⟨by ring, fun h1 => absurd h1 hbit, fun _ => ⟨rfl, by ring⟩,
        iff_of_true rfl (rb_sub_ne (b * h))⟩
  · obtain ⟨b, hb⟩ := genLoop_getD_shape (edOps h) rand key
      Ed25519Engine.SHARED_KEY_BITS edflt Ed25519Engine.SHARED_KEY_BITS 0 0 1 ie hie
    rw [Nat.zero_add] at hb
    rw [hb]
    simp only [mkCommit, edOps_smul, edOps_alt, edOps_add, edOps_sub, edOps_basepoint]
    by_cases hbit : keyBit key ie = 1
    · rw [if_pos hbit]
      exact ⟨rfl, fun _ => ⟨rfl, rfl⟩,
        fun h0 => absurd (h0.symm.trans hbit) Nat.zero_ne_one,
        iff_of_false (ed_add_bp_ne (edSmul b (edAltBasepoint h))) (not_not_intro rfl)⟩
    · rw [if_neg hbit]
      exact ⟨(edSub_add_cancel _ _).symm, fun h1 => absurd h1 hbit,
        fun _ => ⟨rfl, rfl⟩,
        iff_of_true rfl (ed_sub_bp_ne (edSmul b (edAltBasepoint h)))⟩

/-- Witness for C5 at `bits = 1` (Ristretto) and index 0 of the Ed25519
set, with the zero randomness stream and key 1. -/
theorem c5_witness :
    ((genLoop (ristOps 1) zeroRand oneBytes32 1 1 0 0 1).getD 0 rdflt).commitment
        = ((genLoop (ristOps 1) zeroRand oneBytes32 1 1 0 0 1).getD 0
            rdflt).commitment_minus_one + RISTRETTO_BASEPOINT
    ∧ ((genLoop (edOps 1) zeroRand oneBytes32 Ed25519Engine.SHARED_KEY_BITS
          Ed25519Engine.SHARED_KEY_BITS 0 0 1).getD 0 edflt).commitment
        = edAdd ((genLoop (edOps 1) zeroRand oneBytes32 Ed25519Engine.SHARED_KEY_BITS
            Ed25519Engine.SHARED_KEY_BITS 0 0 1).getD 0 edflt).commitment_minus_one
            ED25519_BASEPOINT :=
  ⟨(c5_per_bit_structure 1 zeroRand oneBytes32 1 _ _ rfl rfl 0 (by decide) 0
      (by decide)).1.1,
   (c5_per_bit_structure 1 zeroRand oneBytes32 1 _ _ rfl rfl 0 (by decide) 0
      (by decide)).2.1⟩

end DLEq
